import Mathlib

/-!
Verification of the structural mapping engine of the acadwrite repository
(`markdown_to_template_solution`): content mapper, style mapper, AI-helper
remediation and markdown metadata extraction, shallowly embedded in Lean.

Python dictionaries that play the role of records are embedded as Lean
structures whose fields are `Option`-valued: `none` models an absent key, so
structure equality coincides with Python dict equality on the key set the
program reads or writes.  `dict.get(k, d)` becomes `field.getD d`.
String-keyed dictionaries used as finite maps are embedded either as
association lists with Python insertion semantics (update in place, append
when new) or, for the template style table, as a function
`String → Option (List (String × String))`.
-/

namespace AcadWrite

/-- One document element: the embedding of the element dictionaries produced
by the markdown extractor, the template parsers, the content mapper and the
style mapper.  Each field is one dictionary key the program reads or writes;
`none` means the key is absent. -/
structure El where
  etype : Option String := none
  level : Option Nat := none
  text : Option String := none
  style : Option String := none
  command : Option String := none
  list_type : Option String := none
  env_type : Option String := none
  items : Option (List String) := none
  content : Option String := none
  src : Option String := none
  alt : Option String := none
  caption_style : Option String := none
  name : Option String := none
  options : Option (List String) := none
  arguments : Option (List String) := none
  caption : Option String := none
  style_properties : Option (List (String × String)) := none
  begin_def : Option String := none
  end_def : Option String := none
  rows : Option (List (List String)) := none
  deriving DecidableEq, Repr

/-- A structure issue recorded by `ContentMapper.map`: the dictionaries
appended to `self.structure_issues` always carry exactly the keys
`type`, `level`, `text`. -/
structure Issue where
  itype : String
  level : Nat
  text : String
  deriving DecidableEq, Repr

/-- A content structure (source document, mapped content or styled content):
the top-level dictionaries flowing through the pipeline. -/
structure Content where
  ctype : Option String := none
  template_type : Option String := none
  elements : Option (List El) := none
  document_class : Option (List (String × String)) := none
  packages : Option (List (String × List String)) := none
  metadata : Option (List (String × String)) := none
  deriving DecidableEq, Repr

/-- A style entry of a template: a string-keyed dictionary of strings.  The
program only ever reads the keys `definition`, `begin_def` and `end_def` from
a style entry, tests entry truthiness (non-emptiness) and attaches entries
wholesale, so string values suffice. -/
abbrev TStyle := List (String × String)

/-- A parsed template structure, with the `.get` defaults of the mapper
already applied: `type` defaults to the empty string, `styles` to the empty
dictionary (the function constantly `none`), `structure` to `[]`,
`document_class` to the empty dictionary and `packages` to `[]`. -/
structure Template where
  ttype : String := ""
  styles : String → Option TStyle := fun _ => none
  struct : List El := []
  document_class : List (String × String) := []
  packages : List (String × List String) := []

/-- Association lookup: first binding of the key, mirroring Python dict
lookup on an association list whose keys are unique by construction. -/
def assocGet {α β : Type} [DecidableEq α] : List (α × β) → α → Option β
  | [], _ => none
  | (k0, v0) :: rest, k => if k0 = k then some v0 else assocGet rest k

/-- Python dict assignment `d[k] = v` on an association list: the value of an
existing key is updated in place, a new key is appended. -/
def assocInsert {α β : Type} [DecidableEq α] : List (α × β) → α → β → List (α × β)
  | [], k, v => [(k, v)]
  | (k0, v0) :: rest, k, v =>
      if k0 = k then (k, v) :: rest else (k0, v0) :: assocInsert rest k v

/-- Python truthiness of an optional string: `None` and the empty string are
falsy (`if not style_name:`). -/
def truthyOptStr : Option String → Bool
  | none => false
  | some s => s ≠ ""

/-! ## Content mapper (`content_mapper.py`) -/

/-- Embedding of `ContentMapper._extract_heading_styles`: scan the template
structure elements and build the level-to-style dictionary for headings. -/
def extractHeadingStyles (tes : List El) : List (Nat × String) :=
  tes.foldl
    (fun hs e =>
      if e.etype = some "heading" then
        let lv := e.level.getD 1
        assocInsert hs lv (e.style.getD ("Heading " ++ toString lv))
      else hs)
    []

/-- Embedding of `ContentMapper._extract_default_paragraph_style`: the style
of the first paragraph element, defaulting to `Normal`. -/
def extractDefaultParagraphStyle : List El → String
  | [] => "Normal"
  | e :: rest =>
      if e.etype = some "paragraph" then e.style.getD "Normal"
      else extractDefaultParagraphStyle rest

/-- Embedding of the `level_to_command` table of
`ContentMapper._get_tex_heading_command` (no entry for level 6). -/
def texLevelCommand : Nat → Option String
  | 1 => some "section"
  | 2 => some "subsection"
  | 3 => some "subsubsection"
  | 4 => some "paragraph"
  | 5 => some "subparagraph"
  | _ => none

/-- Embedding of `ContentMapper._get_default_tex_heading_command` (the same
table also appears in `StyleMapper` and in `AIHelper`): level 6 aliases to
`\subparagraph` and any other unknown level to `\section`. -/
def defaultTexHeadingCommand : Nat → String
  | 1 => "\\section"
  | 2 => "\\subsection"
  | 3 => "\\subsubsection"
  | 4 => "\\paragraph"
  | 5 => "\\subparagraph"
  | 6 => "\\subparagraph"
  | _ => "\\section"

/-- Embedding of `ContentMapper._get_tex_heading_command`.  Note the source:
when the level has a command name, a truthy (non-empty) style entry yields
`style.get('definition', '\cmd')` and otherwise the plain `'\cmd'` string is
returned; `None` is returned only when the level has no command name. -/
def getTexHeadingCommand (lv : Nat) (styles : String → Option TStyle) : Option String :=
  match texLevelCommand lv with
  | none => none
  | some cmdName =>
      match styles cmdName with
      | some entry =>
          if entry ≠ [] then some ((assocGet entry "definition").getD ("\\" ++ cmdName))
          else some ("\\" ++ cmdName)
      | none => some ("\\" ++ cmdName)

/-- Embedding of the element loop of `ContentMapper._map_to_docx`: mapped
elements and recorded issues, both in source order.  Element kinds outside
the handled `if`/`elif` chain contribute nothing. -/
def mapDocxElems (hs : List (Nat × String)) (ps : String) : List El → List El × List Issue
  | [] => ([], [])
  | e :: rest =>
      let (es, iss) := mapDocxElems hs ps rest
      let t := e.etype.getD ""
      if t = "heading" then
        let lv := e.level.getD 1
        let tx := e.text.getD ""
        let sty? := assocGet hs lv
        let newIss : List Issue :=
          if truthyOptStr sty? then [] else [⟨"missing_heading_style", lv, tx⟩]
        let styName :=
          if truthyOptStr sty? then sty?.getD "" else "Heading " ++ toString lv
        ({ etype := some "heading", level := some lv, text := some tx,
           style := some styName } :: es, newIss ++ iss)
      else if t = "paragraph" then
        ({ etype := some "paragraph", text := some (e.text.getD ""),
           style := some ps } :: es, iss)
      else if t = "list" ∨ t = "list_item" then
        ({ etype := some "list_item", text := some (e.text.getD ""),
           list_type := some (e.list_type.getD "unordered"),
           style := some "List Paragraph" } :: es, iss)
      else if t = "code_block" then
        ({ etype := some "code_block", text := some (e.text.getD ""),
           style := some "Code" } :: es, iss)
      else if t = "block_quote" then
        ({ etype := some "block_quote", text := some (e.text.getD ""),
           style := some "Quote" } :: es, iss)
      else if t = "table" then
        ({ etype := some "table", rows := some (e.rows.getD []),
           style := some "Table Normal" } :: es, iss)
      else if t = "image" then
        ({ etype := some "image", src := some (e.src.getD ""),
           alt := some (e.alt.getD ""),
           caption_style := some "Caption" } :: es, iss)
      else (es, iss)

/-- Embedding of `ContentMapper._map_to_docx` together with the issues the
call appends to `self.structure_issues`. -/
def mapToDocx (c : Content) (t : Template) : Content × List Issue :=
  let hs := extractHeadingStyles t.struct
  let ps := extractDefaultParagraphStyle t.struct
  let (es, iss) := mapDocxElems hs ps (c.elements.getD [])
  ({ ctype := some "mapped_content", template_type := some "docx",
     elements := some es }, iss)

/-- Embedding of the element loop of `ContentMapper._map_to_tex`. -/
def mapTexElems (styles : String → Option TStyle) : List El → List El × List Issue
  | [] => ([], [])
  | e :: rest =>
      let (es, iss) := mapTexElems styles rest
      let t := e.etype.getD ""
      if t = "heading" then
        let lv := e.level.getD 1
        let tx := e.text.getD ""
        let cmd? := getTexHeadingCommand lv styles
        let newIss : List Issue :=
          if truthyOptStr cmd? then [] else [⟨"missing_heading_command", lv, tx⟩]
        let cmd :=
          if truthyOptStr cmd? then cmd?.getD "" else defaultTexHeadingCommand lv
        ({ etype := some "heading", level := some lv, text := some tx,
           command := some cmd } :: es, newIss ++ iss)
      else if t = "paragraph" then
        ({ etype := some "paragraph", text := some (e.text.getD "") } :: es, iss)
      else if t = "list" ∨ t = "list_item" then
        let env := if e.list_type.getD "unordered" = "unordered" then "itemize" else "enumerate"
        ({ etype := some "environment", env_type := some env,
           items := some [e.text.getD ""] } :: es, iss)
      else if t = "code_block" then
        ({ etype := some "environment", env_type := some "verbatim",
           content := some (e.text.getD "") } :: es, iss)
      else if t = "block_quote" then
        ({ etype := some "environment", env_type := some "quote",
           content := some (e.text.getD "") } :: es, iss)
      else if t = "table" then
        ({ etype := some "environment", env_type := some "tabular",
           content := some (e.content.getD "") } :: es, iss)
      else if t = "image" then
        ({ etype := some "command", name := some "includegraphics",
           options := some [], arguments := some [e.src.getD ""],
           caption := some (e.alt.getD "") } :: es, iss)
      else (es, iss)

/-- Embedding of `ContentMapper._map_to_tex` together with the issues the
call appends to `self.structure_issues`. -/
def mapToTex (c : Content) (t : Template) : Content × List Issue :=
  let (es, iss) := mapTexElems t.styles (c.elements.getD [])
  ({ ctype := some "mapped_content", template_type := some "tex",
     elements := some es, document_class := some t.document_class,
     packages := some t.packages }, iss)

/-- Embedding of `ContentMapper._map_generic`: a shallow copy of the source
content with `type` and `template_type` overwritten. -/
def mapGeneric (c : Content) : Content :=
  { c with ctype := some "mapped_content", template_type := some "generic" }

/-- Embedding of `ContentMapper.map`: the issue list is reset at the start of
each call, so the second component is exactly the issues of this run. -/
def mapContent (c : Content) (t : Template) : Content × List Issue :=
  if t.ttype = "docx" then mapToDocx c t
  else if t.ttype = "tex" then mapToTex c t
  else (mapGeneric c, [])

/-! ## Style mapper (`style_mapper.py`) -/

/-- Embedding of `StyleMapper._get_default_docx_style`: headings are
special-cased to `Heading 1` before the type table is consulted; unknown
element types fall back to `Normal`. -/
def defaultDocxStyle (t : String) : String :=
  if t = "heading" then "Heading 1"
  else if t = "paragraph" then "Normal"
  else if t = "list_item" then "List Paragraph"
  else if t = "code_block" then "Code"
  else if t = "block_quote" then "Quote"
  else if t = "table" then "Table Normal"
  else if t = "image" then "Normal"
  else "Normal"

/-- Embedding of `StyleMapper._apply_docx_style`: membership of the current
style name in the template style table keeps the name and attaches the whole
entry as `style_properties`; absence replaces the name with the type-derived
default. -/
def applyDocxStyle (e : El) (styles : String → Option TStyle) : El :=
  let dflt := defaultDocxStyle (e.etype.getD "")
  let cur := e.style.getD dflt
  match styles cur with
  | some tsty => { e with style := some cur, style_properties := some tsty }
  | none => { e with style := some dflt }

/-- Embedding of `command.lstrip('\\').split('{')[0]`: drop every leading
backslash, then keep the characters before the first opening brace. -/
def stripTexCmdName (s : String) : String :=
  String.mk ((s.data.dropWhile (fun c => c = '\\')).takeWhile (fun c => c ≠ '\x7b'))

/-- Embedding of `StyleMapper._apply_tex_style`: headings have their command
replaced by the table entry's `definition` (defaulting to the current
command) when the stripped command name is in the table; environments gain
`begin_def`/`end_def` from the table entry when their type is in the table;
every other element is returned as a plain copy. -/
def applyTexStyle (e : El) (styles : String → Option TStyle) : El :=
  let t := e.etype.getD ""
  if t = "heading" then
    let lv := e.level.getD 1
    let cmd := e.command.getD (defaultTexHeadingCommand lv)
    match styles (stripTexCmdName cmd) with
    | some tsty => { e with command := some ((assocGet tsty "definition").getD cmd) }
    | none => e
  else if t = "environment" then
    let env := e.env_type.getD ""
    match styles env with
    | some tsty =>
        { e with
          begin_def := some ((assocGet tsty "begin_def").getD ("\\begin\x7b" ++ env ++ "\x7d")),
          end_def := some ((assocGet tsty "end_def").getD ("\\end\x7b" ++ env ++ "\x7d")) }
    | none => e
  else e

/-- Embedding of the per-element loop of `StyleMapper.apply_styles`,
parameterized by the mapper's `template_format` constructor argument: any
format other than `docx` and `tex` leaves the elements untouched. -/
def applyStylesElems (fmt : String) (styles : String → Option TStyle)
    (es : List El) : List El :=
  if fmt = "docx" then es.map (applyDocxStyle · styles)
  else if fmt = "tex" then es.map (applyTexStyle · styles)
  else es

/-- Embedding of the value returned by `StyleMapper.apply_styles`: a copy of
the mapped content whose `elements` key holds the restyled element list. -/
def applyStyles (fmt : String) (c : Content) (t : Template) : Content :=
  { c with elements := some (applyStylesElems fmt t.styles (c.elements.getD [])) }

/-- Embedding of the caller-visible state of the `mapped_content` argument
after `StyleMapper.apply_styles` returns.  The source performs
`styled_content = mapped_content.copy()`: this copies only the top-level
dictionary, so the copy's `elements` slot holds the same list object as the
caller's dictionary; the loop then reassigns `elements[i]` in that shared
list.  Hence, when the caller's dictionary has an `elements` key, the caller
observes the restyled list after the call; only a dictionary without the key
is unaffected (the `.get` default `[]` is then a fresh list). -/
def applyStylesCallerView (fmt : String) (c : Content) (t : Template) : Content :=
  match c.elements with
  | some es => { c with elements := some (applyStylesElems fmt t.styles es) }
  | none => c

/-! ## Mismatch remediation (`ai_helper.py`) -/

/-- Match test of `AIHelper._simulate_ai_adjustment`: the element is a
heading whose `level` and `text` keys are present and equal the issue's
values (`element.get('level') == level` is false when the key is absent). -/
def elMatches (e : El) (lv : Nat) (tx : String) : Bool :=
  e.etype == some "heading" && e.level == some lv && e.text == some tx

/-- Replace the first element satisfying the predicate, mirroring the
`for i, element in enumerate(elements): ... break` search-and-patch loop. -/
def patchFirst (p : El → Bool) (f : El → El) : List El → List El
  | [] => []
  | e :: rest => if p e then f e :: rest else e :: patchFirst p f rest

/-- Processing of one issue inside `AIHelper._simulate_ai_adjustment`:
a `missing_heading_style` issue sets the first matching heading's `style` to
`"Heading {level}"`; a `missing_heading_command` issue sets its `command`
from the static level table; any other issue type does nothing. -/
def applyIssue (es : List El) (iss : Issue) : List El :=
  if iss.itype = "missing_heading_style" then
    patchFirst (fun e => elMatches e iss.level iss.text)
      (fun e => { e with style := some ("Heading " ++ toString iss.level) }) es
  else if iss.itype = "missing_heading_command" then
    patchFirst (fun e => elMatches e iss.level iss.text)
      (fun e => { e with command := some (defaultTexHeadingCommand iss.level) }) es
  else es

/-- Embedding of `AIHelper._simulate_ai_adjustment` as a function of the
content value: issues are processed in order against the working element
list, and the result carries the patched list under `elements`. -/
def simulateAiAdjustment (c : Content) (issues : List Issue) : Content :=
  { c with elements := some (issues.foldl applyIssue (c.elements.getD [])) }

/-- Embedding of `AIHelper.adjust_structure`: an empty issue list yields
`None`; otherwise the simulated adjustment is returned (the `try`/`except`
around it can only fire for infrastructural reasons absent here). -/
def adjustStructure (c : Content) (issues : List Issue) : Option Content :=
  if issues = [] then none else some (simulateAiAdjustment c issues)

/-! ## Metadata extraction (`markdown_parser.py`)

`MarkdownParser._extract_metadata` searches the text for the anchored
pattern `^---\s*\n(.*?)\n---\s*\n` (DOTALL, no MULTILINE, so the match can
only start at position 0) and parses the captured block line by line.  The
embedding reproduces the backtracking order of the engine: the leading
`\s*\n` is tried greedily (longest whitespace run ending in a newline
first), and within each choice the lazy group grows from the shortest
candidate.  `\s` and `str.strip()` use CPython's full Unicode whitespace
set, which is one and the same table for both. -/

/-- CPython's Unicode whitespace predicate, shared by `str.strip()`,
`str.isspace()` and the regex class `\s` on `str` patterns: the characters
U+0009-U+000D, U+001C-U+001F, U+0020, U+0085, U+00A0, U+1680,
U+2000-U+200A, U+2028, U+2029, U+202F, U+205F and U+3000. -/
def isPySpace (c : Char) : Bool :=
  let n := c.toNat
  n = 0x20 || (0x9 ≤ n && n ≤ 0xd) || (0x1c ≤ n && n ≤ 0x1f) ||
  n = 0x85 || n = 0xa0 || n = 0x1680 || (0x2000 ≤ n && n ≤ 0x200a) ||
  n = 0x2028 || n = 0x2029 || n = 0x202f || n = 0x205f || n = 0x3000

/-- Python `str.strip()` on a character list. -/
def pyStrip (cs : List Char) : List Char :=
  ((cs.dropWhile isPySpace).reverse.dropWhile isPySpace).reverse

/-- Lengths the regex fragment `\s*\n` can consume from the front of the
text, in ascending order: every `n` such that the first `n` characters are
whitespace and the `n`-th is a newline. -/
def sepEndsAux : List Char → Nat → List Nat
  | [], _ => []
  | c :: rest, i =>
      if isPySpace c then
        if c = '\n' then (i + 1) :: sepEndsAux rest (i + 1)
        else sepEndsAux rest (i + 1)
      else []

/-- Candidate lengths for a greedy `\s*\n`, longest first (the backtracking
order of the engine). -/
def sepEnds (cs : List Char) : List Nat :=
  (sepEndsAux cs 0).reverse

/-- Whether the closing fragment `\n---\s*\n` matches at the front of the
remaining text (the final `\s*` is greedy but its extent does not affect the
captured group, so only existence matters). -/
def closes : List Char → Bool
  | c1 :: c2 :: c3 :: c4 :: rest =>
      c1 = '\n' && c2 = '-' && c3 = '-' && c4 = '-' && !(sepEnds rest).isEmpty
  | _ => false

/-- The lazy group `(.*?)` with DOTALL: the shortest prefix after which the
closing fragment matches, or `none` when no completion exists. -/
def lazyGroup : List Char → Option (List Char)
  | [] => none
  | c :: rest =>
      if closes (c :: rest) then some []
      else (lazyGroup rest).map (fun g => c :: g)

/-- Try the separator candidates in backtracking order and return the first
successfully captured group. -/
def firstGroup : List Nat → (Nat → Option (List Char)) → Option (List Char)
  | [], _ => none
  | n :: ns, f =>
      match f n with
      | some g => some g
      | none => firstGroup ns f

/-- Anchored match of `^---\s*\n(.*?)\n---\s*\n` at the start of the text,
returning the captured group. -/
def matchFront (cs : List Char) : Option (List Char) :=
  match cs with
  | c1 :: c2 :: c3 :: rest =>
      if c1 = '-' ∧ c2 = '-' ∧ c3 = '-' then
        firstGroup (sepEnds rest) (fun n => lazyGroup (rest.drop n))
      else none
  | _ => none

/-- Python `str.split('\n')`: split at every newline, keeping empty pieces. -/
def splitOnNl : List Char → List (List Char)
  | [] => [[]]
  | c :: rest =>
      if c = '\n' then [] :: splitOnNl rest
      else
        match splitOnNl rest with
        | [] => [[c]]
        | l :: ls => (c :: l) :: ls

/-- One line of the captured block: when the line contains a colon, split at
the first colon, strip both sides and assign into the metadata dictionary
(update in place on duplicates); otherwise the line is ignored. -/
def parseMetaLine (md : List (String × String)) (line : List Char) : List (String × String) :=
  if line.contains ':' then
    let key := line.takeWhile (fun c => c ≠ ':')
    let value := (line.dropWhile (fun c => c ≠ ':')).drop 1
    assocInsert md (String.mk (pyStrip key)) (String.mk (pyStrip value))
  else md

/-- Embedding of `MarkdownParser._extract_metadata`. -/
def extractMetadata (text : String) : List (String × String) :=
  match matchFront text.data with
  | none => []
  | some grp => (splitOnNl grp).foldl parseMetaLine []

/-! ## General helper lemmas -/

theorem data_append (a b : String) : (a ++ b).data = a.data ++ b.data := rfl

theorem backslash_append_ne_empty (s : String) : ("\\" ++ s) ≠ "" := by
  intro h
  have h2 : ("\\" ++ s).data = ("" : String).data := by rw [h]
  rw [data_append] at h2
  have h3 : ("\\" : String).data = ['\\'] := rfl
  rw [h3] at h2
  exact List.cons_ne_nil _ _ h2

/-! ## Concrete inputs used by counterexamples and witnesses -/

/-- A level-1 source heading with text `Intro`. -/
def introHeading : El :=
  { etype := some "heading", level := some 1, text := some "Intro" }

/-- A source document holding only `introHeading`. -/
def cIntro : Content := { elements := some [introHeading] }

/-- A tex template with an empty style table: no override is defined for any
sectioning command. -/
def tTexPlain : Template := { ttype := "tex" }

/-- A level-6 source heading with text `x`. -/
def h6 : El := { etype := some "heading", level := some 6, text := some "x" }

/-- A source document holding only the level-6 heading. -/
def cH6 : Content := { elements := some [h6] }

/-- A tex template whose style table defines a non-empty override entry with
a non-empty `definition` for every identifier whatsoever. -/
def tTexFull : Template :=
  { ttype := "tex", styles := fun s => some [("definition", "\\X" ++ s)] }

/-! ## C1: tex heading mapping and missing_heading_command -/

/-- C1 (counterexample): mapping a level-1 heading against a markup-like
template that defines no `section` override yields the static default
command `\section` but records NO issue, contrary to the claim that exactly
one `missing_heading_command` issue is recorded in this situation.  The
source of `_get_tex_heading_command` returns the truthy string `'\section'`
when the style table has no entry, so the `if not command` fallback in
`_map_to_tex` never fires for levels 1-5. -/
theorem tex_level1_no_override_no_issue :
    (mapContent cIntro tTexPlain).1.elements =
      some [{ etype := some "heading", level := some 1, text := some "Intro",
              command := some "\\section" }] ∧
    (mapContent cIntro tTexPlain).2 = [] := by
  constructor <;> rfl

/-- C1 (amended): for markup-like mapping of a source heading, the cases
below are exhaustive.  (a) When the level's sectioning command has no entry
in the template's style table, the mapped command is the static default
`\cmd` and no issue is recorded; (b) when the table holds a non-empty entry
whose `definition` is a non-empty string, that definition becomes the
command and no issue is recorded; (c) when the level has no sectioning
command (level 6 or any level outside 1-5), a `missing_heading_command`
issue carrying the heading's level and text is recorded and the static
default command table value is substituted; (d) an empty table entry or an
entry without a `definition` behaves like an absent entry; (e) a non-empty
entry whose `definition` is the empty string (reachable from
`\renewcommand{\section}{}` in a template) resolves to a falsy command, so
an issue is recorded and the static default command table value is
substituted, exactly as in (c).  Hence an issue is recorded precisely when
the resolved command is falsy: the level has no sectioning command, or the
defined `definition` is the empty string. -/
theorem mapToTex_heading_cases (e : El) (rest : List El)
    (styles : String → Option TStyle) (he : e.etype = some "heading") :
    (∀ n, texLevelCommand (e.level.getD 1) = some n → styles n = none →
      mapTexElems styles (e :: rest) =
        ({ etype := some "heading", level := some (e.level.getD 1),
           text := some (e.text.getD ""), command := some ("\\" ++ n) }
            :: (mapTexElems styles rest).1,
         (mapTexElems styles rest).2)) ∧
    (∀ n entry d, texLevelCommand (e.level.getD 1) = some n →
      styles n = some entry → entry ≠ [] →
      assocGet entry "definition" = some d → d ≠ "" →
      mapTexElems styles (e :: rest) =
        ({ etype := some "heading", level := some (e.level.getD 1),
           text := some (e.text.getD ""), command := some d }
            :: (mapTexElems styles rest).1,
         (mapTexElems styles rest).2)) ∧
    (texLevelCommand (e.level.getD 1) = none →
      mapTexElems styles (e :: rest) =
        ({ etype := some "heading", level := some (e.level.getD 1),
           text := some (e.text.getD ""),
           command := some (defaultTexHeadingCommand (e.level.getD 1)) }
            :: (mapTexElems styles rest).1,
         ⟨"missing_heading_command", e.level.getD 1, e.text.getD ""⟩
            :: (mapTexElems styles rest).2)) ∧
    (∀ n entry, texLevelCommand (e.level.getD 1) = some n →
      styles n = some entry →
      (entry = [] ∨ assocGet entry "definition" = none) →
      mapTexElems styles (e :: rest) =
        ({ etype := some "heading", level := some (e.level.getD 1),
           text := some (e.text.getD ""), command := some ("\\" ++ n) }
            :: (mapTexElems styles rest).1,
         (mapTexElems styles rest).2)) ∧
    (∀ n entry, texLevelCommand (e.level.getD 1) = some n →
      styles n = some entry → entry ≠ [] →
      assocGet entry "definition" = some "" →
      mapTexElems styles (e :: rest) =
        ({ etype := some "heading", level := some (e.level.getD 1),
           text := some (e.text.getD ""),
           command := some (defaultTexHeadingCommand (e.level.getD 1)) }
            :: (mapTexElems styles rest).1,
         ⟨"missing_heading_command", e.level.getD 1, e.text.getD ""⟩
            :: (mapTexElems styles rest).2)) := by
  rcases hrec : mapTexElems styles rest with ⟨es, iss⟩
  refine ⟨?_, ?_, ?_, ?_, ?_⟩
  · intro n hn hs
    simp [mapTexElems, hrec, he, getTexHeadingCommand, hn, hs, truthyOptStr,
      backslash_append_ne_empty n]
  · intro n entry d hn hs hne hd hdne
    simp [mapTexElems, hrec, he, getTexHeadingCommand, hn, hs, hne, hd,
      truthyOptStr, hdne]
  · intro hn
    simp [mapTexElems, hrec, he, getTexHeadingCommand, hn, truthyOptStr]
  · intro n entry hn hs hcase
    rcases hcase with hnil | hdef
    · subst hnil
      simp [mapTexElems, hrec, he, getTexHeadingCommand, hn, hs, truthyOptStr,
        backslash_append_ne_empty n]
    · by_cases hnil : entry = []
      · subst hnil
        simp [mapTexElems, hrec, he, getTexHeadingCommand, hn, hs, truthyOptStr,
          backslash_append_ne_empty n]
      · simp [mapTexElems, hrec, he, getTexHeadingCommand, hn, hs, hnil, hdef,
          truthyOptStr, backslash_append_ne_empty n]
  · intro n entry hn hs hne hd
    simp [mapTexElems, hrec, he, getTexHeadingCommand, hn, hs, hne, hd,
      truthyOptStr]

/-- Witness for `mapToTex_heading_cases` at concrete inputs: the level-1
heading against the empty style table maps to the static `\section` with no
issue, and against a table whose `section` entry defines the empty string it
maps to the default `\section` with one issue. -/
theorem mapToTex_heading_cases_witness :
    mapTexElems (fun _ => none) [introHeading] =
      ([{ etype := some "heading", level := some 1, text := some "Intro",
          command := some "\\section" }], []) ∧
    mapTexElems
        (fun s => if s = "section" then some [("definition", "")] else none)
        [introHeading] =
      ([{ etype := some "heading", level := some 1, text := some "Intro",
          command := some "\\section" }],
       [⟨"missing_heading_command", 1, "Intro"⟩]) := by
  constructor
  · have h := (mapToTex_heading_cases introHeading [] (fun _ => none) rfl).1
      "section" rfl rfl
    simpa using h
  · have h := (mapToTex_heading_cases introHeading []
      (fun s => if s = "section" then some [("definition", "")] else none)
      rfl).2.2.2.2 "section" [("definition", "")] rfl (by decide) (by decide) (by decide)
    simpa using h

/-! ## C3: no false positives -/

/-- C3 (counterexample): a source containing a level-6 heading is mapped
against a markup-like template whose style table defines a non-empty entry
(with a non-empty `definition`) for every identifier, so every heading level
appearing in the source is defined under any reading; `map` nevertheless
returns a non-empty issue list, because the tex command table has no entry
for level 6 and `_get_tex_heading_command` then returns `None`
unconditionally. -/
theorem tex_level6_issue_despite_full_table :
    (mapContent cH6 tTexFull).2 = [⟨"missing_heading_command", 6, "x"⟩] := by
  rfl

/-- Helper: an element whose `type` is not `heading` never contributes to
the docx issue list. -/
theorem mapDocxElems_cons_issues_nonheading (hs : List (Nat × String))
    (ps : String) (e : El) (l : List El) (hne : e.etype.getD "" ≠ "heading") :
    (mapDocxElems hs ps (e :: l)).2 = (mapDocxElems hs ps l).2 := by
  rcases hrec : mapDocxElems hs ps l with ⟨es', iss'⟩
  simp only [mapDocxElems, hrec]
  rw [if_neg hne]
  split
  · rfl
  split
  · rfl
  split
  · rfl
  split
  · rfl
  split
  · rfl
  split
  · rfl
  rfl

/-- Helper: an element whose `type` is not `heading` never contributes to
the tex issue list. -/
theorem mapTexElems_cons_issues_nonheading (styles : String → Option TStyle)
    (e : El) (l : List El) (hne : e.etype.getD "" ≠ "heading") :
    (mapTexElems styles (e :: l)).2 = (mapTexElems styles l).2 := by
  rcases hrec : mapTexElems styles l with ⟨es', iss'⟩
  simp only [mapTexElems, hrec]
  rw [if_neg hne]
  split
  · rfl
  split
  · rfl
  split
  · rfl
  split
  · rfl
  split
  · rfl
  split
  · rfl
  rfl

/-- Helper: `Option.getD`-style type tests agree with equality to
`some "heading"`. -/
theorem etype_getD_heading (e : El) :
    e.etype.getD "" = "heading" ↔ e.etype = some "heading" := by
  rcases h : e.etype with _ | s <;> simp

/-- Helper: the docx mapping loop records no issues when every source
heading's level resolves to a truthy (present and non-empty) style in the
extracted heading style table. -/
theorem mapDocxElems_no_issues (hs : List (Nat × String)) (ps : String)
    (es : List El)
    (h : ∀ e ∈ es, e.etype = some "heading" →
      truthyOptStr (assocGet hs (e.level.getD 1)) = true) :
    (mapDocxElems hs ps es).2 = [] := by
  induction es with
  | nil => rfl
  | cons e l ih =>
    have hl : (mapDocxElems hs ps l).2 = [] :=
      ih (fun e' he' => h e' (List.mem_cons_of_mem _ he'))
    by_cases he : e.etype = some "heading"
    · have ht := h e (List.mem_cons_self _ _) he
      rcases hrec : mapDocxElems hs ps l with ⟨es', iss'⟩
      rw [hrec] at hl
      subst hl
      simp [mapDocxElems, hrec, he, ht]
    · rw [mapDocxElems_cons_issues_nonheading hs ps e l
        (fun hc => he ((etype_getD_heading e).mp hc)), hl]

/-- Helper: the tex mapping loop records no issues when every source
heading's resolved command is truthy. -/
theorem mapTexElems_no_issues (styles : String → Option TStyle) (es : List El)
    (h : ∀ e ∈ es, e.etype = some "heading" →
      truthyOptStr (getTexHeadingCommand (e.level.getD 1) styles) = true) :
    (mapTexElems styles es).2 = [] := by
  induction es with
  | nil => rfl
  | cons e l ih =>
    have hl : (mapTexElems styles l).2 = [] :=
      ih (fun e' he' => h e' (List.mem_cons_of_mem _ he'))
    by_cases he : e.etype = some "heading"
    · have ht := h e (List.mem_cons_self _ _) he
      rcases hrec : mapTexElems styles l with ⟨es', iss'⟩
      rw [hrec] at hl
      subst hl
      simp [mapTexElems, hrec, he, ht]
    · rw [mapTexElems_cons_issues_nonheading styles e l
        (fun hc => he ((etype_getD_heading e).mp hc)), hl]

/-- Helper: with a heading level between 1 and 5 the resolved tex command is
truthy, provided every `definition` string defined anywhere in the template
style table is non-empty. -/
theorem getTexHeadingCommand_truthy (lv : Nat)
    (styles : String → Option TStyle) (h1 : 1 ≤ lv) (h5 : lv ≤ 5)
    (hdef : ∀ nm entry, styles nm = some entry →
      ∀ d, assocGet entry "definition" = some d → d ≠ "") :
    truthyOptStr (getTexHeadingCommand lv styles) = true := by
  have hcmd : ∃ n, texLevelCommand lv = some n := by
    interval_cases lv <;> exact ⟨_, rfl⟩
  rcases hcmd with ⟨n, hn⟩
  rcases hs : styles n with _ | entry
  · simp [getTexHeadingCommand, hn, hs, truthyOptStr, backslash_append_ne_empty n]
  · by_cases hne : entry = []
    · simp [getTexHeadingCommand, hn, hs, hne, truthyOptStr,
        backslash_append_ne_empty n]
    · rcases hd : assocGet entry "definition" with _ | d
      · simp [getTexHeadingCommand, hn, hs, hne, hd, truthyOptStr,
          backslash_append_ne_empty n]
      · simp [getTexHeadingCommand, hn, hs, hne, hd, truthyOptStr,
          hdef n entry hs d hd]

/-- C3 (amended): no false positives holds in this form: for a docx-like
template, if the extracted heading style table defines a non-empty style
name for every heading level appearing in the source, `map` returns an
empty issue list (this covers all levels, including 6); for a markup-like
template, `map` returns an empty issue list provided every source heading
level lies between 1 and 5 and every `definition` the style table defines is
a non-empty string — a level-6 heading records an issue regardless of the
template, as the counterexample shows. -/
theorem map_no_false_positives (c : Content) (t : Template) :
    (t.ttype = "docx" →
      (∀ e ∈ c.elements.getD [], e.etype = some "heading" →
        ∃ s, assocGet (extractHeadingStyles t.struct) (e.level.getD 1) = some s ∧
          s ≠ "") →
      (mapContent c t).2 = []) ∧
    (t.ttype = "tex" →
      (∀ e ∈ c.elements.getD [], e.etype = some "heading" →
        1 ≤ e.level.getD 1 ∧ e.level.getD 1 ≤ 5) →
      (∀ nm entry, t.styles nm = some entry →
        ∀ d, assocGet entry "definition" = some d → d ≠ "") →
      (mapContent c t).2 = []) := by
  constructor
  · intro hty hdef
    have : (mapToDocx c t).2 = [] := by
      apply mapDocxElems_no_issues
      intro e he hh
      rcases hdef e he hh with ⟨s, hs, hsne⟩
      simp [hs, truthyOptStr, hsne]
    simpa [mapContent, hty] using this
  · intro hty hlv hdef
    have : (mapToTex c t).2 = [] := by
      apply mapTexElems_no_issues
      intro e he hh
      exact getTexHeadingCommand_truthy _ _ (hlv e he hh).1 (hlv e he hh).2 hdef
    simp only [mapContent, hty]
    have hne : t.ttype ≠ "docx" := by rw [hty]; decide
    simpa [hne] using this

/-- Witness for `map_no_false_positives` at a concrete input: a docx
template whose structure defines heading levels 1 and 2 produces no issues
for a source using those levels, and a tex template with no overrides
produces no issues for levels 1 to 5. -/
theorem map_no_false_positives_witness :
    (mapContent
      { elements := some [{ etype := some "heading", level := some 1, text := some "a" },
                          { etype := some "heading", level := some 2, text := some "b" }] }
      { ttype := "docx",
        struct := [{ etype := some "heading", level := some 1, style := some "T1" },
                   { etype := some "heading", level := some 2, style := some "T2" }] }).2 = [] ∧
    (mapContent cIntro tTexPlain).2 = [] := by
  constructor
  · apply (map_no_false_positives _ _).1 rfl
    intro e he hh
    fin_cases he <;> exact ⟨_, rfl, by decide⟩
  · apply (map_no_false_positives cIntro tTexPlain).2 rfl
    · intro e he hh
      fin_cases he
      exact ⟨by decide, by decide⟩
    · intro nm entry hs d hd
      simp [tTexPlain] at hs

/-! ## C4: docx missing_heading_style issues -/

/-- Helper: every mapped element of the tail mapping is still a mapped
element after one more source element is prepended. -/
theorem mapDocxElems_cons_subset (hs : List (Nat × String)) (ps : String)
    (e : El) (l : List El) :
    ∀ x ∈ (mapDocxElems hs ps l).1, x ∈ (mapDocxElems hs ps (e :: l)).1 := by
  intro x hx
  rcases hrec : mapDocxElems hs ps l with ⟨es', iss'⟩
  rw [hrec] at hx
  simp only [mapDocxElems, hrec]
  split
  · exact List.mem_cons_of_mem _ hx
  split
  · exact List.mem_cons_of_mem _ hx
  split
  · exact List.mem_cons_of_mem _ hx
  split
  · exact List.mem_cons_of_mem _ hx
  split
  · exact List.mem_cons_of_mem _ hx
  split
  · exact List.mem_cons_of_mem _ hx
  split
  · exact List.mem_cons_of_mem _ hx
  exact hx

/-- Helper: under a style table without empty-string values, the docx issue
list is exactly the source-ordered selection of the headings whose level is
absent from the table. -/
theorem mapDocxElems_issues_filterMap (hs : List (Nat × String)) (ps : String)
    (es : List El) (Hne : ∀ lv s, assocGet hs lv = some s → s ≠ "") :
    (mapDocxElems hs ps es).2 = es.filterMap (fun e =>
      if e.etype = some "heading" ∧ assocGet hs (e.level.getD 1) = none
      then some ⟨"missing_heading_style", e.level.getD 1, e.text.getD ""⟩
      else none) := by
  induction es with
  | nil => rfl
  | cons e l ih =>
    rcases hrec : mapDocxElems hs ps l with ⟨es', iss'⟩
    rw [hrec] at ih
    by_cases he : e.etype = some "heading"
    · rcases hlook : assocGet hs (e.level.getD 1) with _ | s
      · simp [mapDocxElems, hrec, he, hlook, truthyOptStr, ih,
          List.filterMap_cons]
      · have hsne : s ≠ "" := Hne _ _ hlook
        simp [mapDocxElems, hrec, he, hlook, truthyOptStr, hsne, ih,
          List.filterMap_cons]
    · have h2 := mapDocxElems_cons_issues_nonheading hs ps e l
        (fun hc => he ((etype_getD_heading e).mp hc))
      rw [hrec] at h2
      rw [h2, ih, List.filterMap_cons]
      simp [he]

/-- Helper: every recorded `missing_heading_style` issue has a matching
mapped heading carrying the synthesized default style name. -/
theorem mapDocxElems_missing_mem (hs : List (Nat × String)) (ps : String)
    (es : List El) :
    ∀ lv tx, (⟨"missing_heading_style", lv, tx⟩ : Issue) ∈ (mapDocxElems hs ps es).2 →
      ({ etype := some "heading", level := some lv, text := some tx,
         style := some ("Heading " ++ toString lv) } : El) ∈ (mapDocxElems hs ps es).1 := by
  induction es with
  | nil => intro lv tx h; simp [mapDocxElems] at h
  | cons e l ih =>
    intro lv tx hmem
    by_cases he : e.etype = some "heading"
    · by_cases ht : truthyOptStr (assocGet hs (e.level.getD 1)) = true
      · have hiss : (mapDocxElems hs ps (e :: l)).2 = (mapDocxElems hs ps l).2 := by
          rcases hrec : mapDocxElems hs ps l with ⟨es', iss'⟩
          simp [mapDocxElems, hrec, he, ht]
        rw [hiss] at hmem
        exact mapDocxElems_cons_subset hs ps e l _ (ih lv tx hmem)
      · have ht' : truthyOptStr (assocGet hs (e.level.getD 1)) = false :=
          Bool.eq_false_iff.mpr ht
        have hiss : (mapDocxElems hs ps (e :: l)).2 =
            ⟨"missing_heading_style", e.level.getD 1, e.text.getD ""⟩ ::
              (mapDocxElems hs ps l).2 := by
          rcases hrec : mapDocxElems hs ps l with ⟨es', iss'⟩
          simp [mapDocxElems, hrec, he, ht']
        rw [hiss] at hmem
        rcases List.mem_cons.mp hmem with heq | htail
        · have hlv : lv = e.level.getD 1 := by
            injection heq with _ h2 _
          have htx : tx = e.text.getD "" := by
            injection heq with _ _ h3
          subst hlv; subst htx
          have hes : (mapDocxElems hs ps (e :: l)).1 =
              { etype := some "heading", level := some (e.level.getD 1),
                text := some (e.text.getD ""),
                style := some ("Heading " ++ toString (e.level.getD 1)) } ::
                (mapDocxElems hs ps l).1 := by
            rcases hrec : mapDocxElems hs ps l with ⟨es', iss'⟩
            simp [mapDocxElems, hrec, he, ht']
          rw [hes]
          exact List.mem_cons_self _ _
        · exact mapDocxElems_cons_subset hs ps e l _ (ih lv tx htail)
    · have h2 := mapDocxElems_cons_issues_nonheading hs ps e l
        (fun hc => he ((etype_getD_heading e).mp hc))
      rw [h2] at hmem
      exact mapDocxElems_cons_subset hs ps e l _ (ih lv tx hmem)

/-- C4 (confirmed): in docx-like mapping, assuming the extracted heading
style table carries no empty-string style names (the table values are
truthy), the recorded issue list is exactly one `missing_heading_style`
issue per source heading whose level is absent from the table, in source
order, carrying the heading's level and text — non-heading elements never
contribute an issue — and each such issue's heading is mapped with the
synthesized default style name `Heading {level}`. -/
theorem mapToDocx_missing_heading_spec (c : Content) (t : Template)
    (Hne : ∀ lv s, assocGet (extractHeadingStyles t.struct) lv = some s → s ≠ "") :
    ((mapToDocx c t).2 = (c.elements.getD []).filterMap (fun e =>
        if e.etype = some "heading" ∧
            assocGet (extractHeadingStyles t.struct) (e.level.getD 1) = none
        then some ⟨"missing_heading_style", e.level.getD 1, e.text.getD ""⟩
        else none)) ∧
    (∀ lv tx, (⟨"missing_heading_style", lv, tx⟩ : Issue) ∈ (mapToDocx c t).2 →
      ({ etype := some "heading", level := some lv, text := some tx,
         style := some ("Heading " ++ toString lv) } : El) ∈
        ((mapToDocx c t).1.elements.getD [])) := by
  rcases hrec : mapDocxElems (extractHeadingStyles t.struct)
      (extractDefaultParagraphStyle t.struct) (c.elements.getD []) with ⟨es, iss⟩
  have h1 : (mapToDocx c t).2 = iss := by simp [mapToDocx, hrec]
  have h2 : (mapToDocx c t).1.elements.getD [] = es := by simp [mapToDocx, hrec]
  constructor
  · rw [h1, ← mapDocxElems_issues_filterMap _ (extractDefaultParagraphStyle t.struct)
      _ Hne, hrec]
  · intro lv tx hmem
    rw [h1] at hmem
    rw [h2]
    have := mapDocxElems_missing_mem (extractHeadingStyles t.struct)
      (extractDefaultParagraphStyle t.struct) (c.elements.getD []) lv tx
    rw [hrec] at this
    exact this hmem

/-- Source content for the C4 witness: two headings around a paragraph. -/
def cW4 : Content := { elements := some [
  { etype := some "heading", level := some 1, text := some "One" },
  { etype := some "paragraph", text := some "p" },
  { etype := some "heading", level := some 6, text := some "Six" }] }

/-- A docx template with an empty body structure: no heading level is
defined. -/
def tDocxEmpty : Template := { ttype := "docx" }

/-- Witness for `mapToDocx_missing_heading_spec` at a concrete input: both
headings are reported, in source order, and the paragraph is not. -/
theorem mapToDocx_missing_heading_spec_witness :
    (mapToDocx cW4 tDocxEmpty).2 =
      [⟨"missing_heading_style", 1, "One"⟩, ⟨"missing_heading_style", 6, "Six"⟩] := by
  have h := (mapToDocx_missing_heading_spec cW4 tDocxEmpty
    (by intro lv s hcontra; simp [tDocxEmpty, extractHeadingStyles, assocGet] at hcontra)).1
  rw [h]
  decide

/-! ## C8: docx style fallback -/

/-- C8 (confirmed): when a docx-like element's current style name (its
`style` key, defaulting to the type-derived default when the key is absent)
is not in the template's style table, the style resolver replaces the style
name with the type-derived canonical default and changes nothing else; for a
heading that default is always `Heading 1`, regardless of the heading's
level. -/
theorem applyDocxStyle_absent_default (e : El) (styles : String → Option TStyle)
    (h : styles (e.style.getD (defaultDocxStyle (e.etype.getD ""))) = none) :
    applyDocxStyle e styles =
      { e with style := some (defaultDocxStyle (e.etype.getD "")) } ∧
    (e.etype = some "heading" → defaultDocxStyle (e.etype.getD "") = "Heading 1") := by
  constructor
  · simp [applyDocxStyle, h]
  · intro he
    simp [he, defaultDocxStyle]

/-- Witness for `applyDocxStyle_absent_default` at a concrete input: a
level-3 heading with style `Zed` against an empty style table comes back
with style `Heading 1`. -/
theorem applyDocxStyle_absent_default_witness :
    applyDocxStyle
        { etype := some "heading", level := some 3, text := some "t",
          style := some "Zed" } (fun _ => none) =
      { etype := some "heading", level := some 3, text := some "t",
        style := some "Heading 1" } := by
  have h := (applyDocxStyle_absent_default
    { etype := some "heading", level := some 3, text := some "t",
      style := some "Zed" } (fun _ => none) rfl).1
  rw [h]
  decide

/-! ## C7: fallback never throws on an empty style table -/

/-- Helper: with an everywhere-empty style table the tex style application
is the identity on every element. -/
theorem applyTexStyle_empty (e : El) (styles : String → Option TStyle)
    (h : ∀ s, styles s = none) : applyTexStyle e styles = e := by
  simp [applyTexStyle, h]

/-- C7 (confirmed): `apply_styles` with a template whose style table is
empty is a total function of its inputs (the embedding has no failure case,
mirroring the source, where every dictionary access goes through `.get`
defaults), every docx-like element receives exactly the type-derived default
style, and every markup-like element is passed through unchanged, keeping
the synthesized default command or environment it received from the mapper. -/
theorem applyStyles_empty_table (c : Content) (t : Template)
    (h : ∀ s, t.styles s = none) :
    (applyStyles "docx" c t).elements =
      some ((c.elements.getD []).map
        (fun e => { e with style := some (defaultDocxStyle (e.etype.getD "")) })) ∧
    applyStyles "tex" c t = { c with elements := some (c.elements.getD []) } := by
  constructor
  · simp only [applyStyles, applyStylesElems, if_pos rfl]
    congr 1
    apply List.map_congr_left
    intro e _
    simp [applyDocxStyle, h]
  · have hmap : ∀ es : List El, es.map (applyTexStyle · t.styles) = es := by
      intro es
      induction es with
      | nil => rfl
      | cons e l ih => rw [List.map_cons, applyTexStyle_empty e _ h, ih]
    simp [applyStyles, applyStylesElems, hmap]

/-- Source content for the C7 witness: one heading, one environment, one
paragraph. -/
def cW7 : Content := { elements := some [
  { etype := some "heading", level := some 2, text := some "h",
    command := some "\\subsection" },
  { etype := some "environment", env_type := some "itemize",
    items := some ["a"] },
  { etype := some "paragraph", text := some "p", style := some "Normal" }] }

/-- Witness for `applyStyles_empty_table` at a concrete input. -/
theorem applyStyles_empty_table_witness :
    (applyStyles "docx" cW7 { ttype := "docx" }).elements =
      some ((cW7.elements.getD []).map
        (fun e => { e with style := some (defaultDocxStyle (e.etype.getD "")) })) ∧
    applyStyles "tex" cW7 { ttype := "docx" } =
      { cW7 with elements := some (cW7.elements.getD []) } :=
  applyStyles_empty_table cW7 { ttype := "docx" } (fun _ => rfl)

/-! ## C2: apply_styles mutates the caller's mapped content -/

/-- A mapped content holding one paragraph whose style name `Foo` is not
defined by the template below. -/
def cP : Content :=
  { ctype := some "mapped_content", template_type := some "docx",
    elements := some [{ etype := some "paragraph", text := some "hello",
                        style := some "Foo" }] }

/-- A docx template whose style table defines exactly the style `Normal`. -/
def tN : Template :=
  { ttype := "docx",
    styles := fun s => if s = "Normal" then some [("name", "Normal")] else none }

/-- C2 (code bug): evaluated at the failing input, the caller's mapped
content is observably changed by `apply_styles` — after the call the
caller's `elements` list holds the restyled paragraph (its style replaced by
`Normal`), coinciding with the returned styled content, while the claim and
the spec state the caller's structure is unchanged.  The slip in the source:
`styled_content = mapped_content.copy()` copies only the top-level
dictionary, so `elements = styled_content.get('elements', [])` is the
caller's own list object and `elements[i] = ...` reassigns its slots in
place (the per-element `element.copy()` calls protect the element records,
but not the list). -/
theorem applyStyles_mutates_caller :
    applyStylesCallerView "docx" cP tN ≠ cP ∧
    applyStylesCallerView "docx" cP tN = applyStyles "docx" cP tN := by
  constructor
  · decide
  · rfl

/-! ## C5: idempotence of style application -/

/-- C5 (counterexample): style application is not idempotent.  For the
paragraph with style `Foo` (absent from the table) and the template defining
`Normal`, the first application falls back to the style name `Normal`
without properties, and the second application then finds `Normal` in the
table and attaches `style_properties`, so applying twice differs from
applying once. -/
theorem applyStyles_not_idempotent :
    applyStyles "docx" (applyStyles "docx" cP tN) tN ≠ applyStyles "docx" cP tN := by
  decide

/-- Stability of one docx element under a style table: its current style
name is in the table, or the type-derived default is not. -/
def docxElemStable (styles : String → Option TStyle) (e : El) : Prop :=
  (styles (e.style.getD (defaultDocxStyle (e.etype.getD "")))).isSome = true ∨
  styles (defaultDocxStyle (e.etype.getD "")) = none

/-- Stability of a tex style table: whenever a `definition` string `d` is
defined for some command and the command name of `d` itself carries a table
entry, that entry either has no `definition` or defines `d` again. -/
def texStylesStable (styles : String → Option TStyle) : Prop :=
  ∀ nm entry d, styles nm = some entry → assocGet entry "definition" = some d →
    ∀ entry2, styles (stripTexCmdName d) = some entry2 →
      assocGet entry2 "definition" = none ∨ assocGet entry2 "definition" = some d

/-- Helper: one docx element resolves idempotently under its stability
condition. -/
theorem applyDocxStyle_idem (e : El) (styles : String → Option TStyle)
    (h : docxElemStable styles e) :
    applyDocxStyle (applyDocxStyle e styles) styles = applyDocxStyle e styles := by
  rcases hcur : styles (e.style.getD (defaultDocxStyle (e.etype.getD ""))) with _ | ts
  · have hdflt : styles (defaultDocxStyle (e.etype.getD "")) = none := by
      rcases h with h1 | h2
      · rw [hcur] at h1; simp at h1
      · exact h2
    simp [applyDocxStyle, hcur, hdflt]
  · simp [applyDocxStyle, hcur]

/-- Helper: one tex element resolves idempotently under table stability. -/
theorem applyTexStyle_idem (e : El) (styles : String → Option TStyle)
    (h : texStylesStable styles) :
    applyTexStyle (applyTexStyle e styles) styles = applyTexStyle e styles := by
  by_cases hh : e.etype.getD "" = "heading"
  · rcases hcmd : styles (stripTexCmdName
        (e.command.getD (defaultTexHeadingCommand (e.level.getD 1)))) with _ | entry
    · simp [applyTexStyle, hh, hcmd]
    · rcases hdef : assocGet entry "definition" with _ | d
      · simp [applyTexStyle, hh, hcmd, hdef]
      · rcases hcmd2 : styles (stripTexCmdName d) with _ | entry2
        · simp [applyTexStyle, hh, hcmd, hdef, hcmd2]
        · rcases h _ _ _ hcmd hdef _ hcmd2 with hd2 | hd2 <;>
            simp [applyTexStyle, hh, hcmd, hdef, hcmd2, hd2]
  · by_cases he : e.etype.getD "" = "environment"
    · rcases henv : styles (e.env_type.getD "") with _ | entry
      · simp [applyTexStyle, hh, he, henv]
      · simp [applyTexStyle, hh, he, henv]
    · simp [applyTexStyle, hh, he]

/-- C5 (amended): style application is idempotent under per-run stability
conditions, which the counterexample shows cannot be dropped: for docx-like
content, every element's current style name must be in the template's style
table or its type-derived default absent from it; for markup-like content,
every `definition` the style table defines must strip to a command name that
is either not in the table or overridden with that same definition.  Under
these conditions (and unconditionally for any unrecognized format, where the
element list passes through unchanged), applying the resolver twice with the
unchanged template equals applying it once. -/
theorem applyStyles_idempotent (fmt : String) (c : Content) (t : Template)
    (hd : fmt = "docx" → ∀ e ∈ c.elements.getD [], docxElemStable t.styles e)
    (ht : fmt = "tex" → texStylesStable t.styles) :
    applyStyles fmt (applyStyles fmt c t) t = applyStyles fmt c t := by
  have helems : ∀ es : List El,
      (∀ e ∈ es, fmt = "docx" → docxElemStable t.styles e) →
      applyStylesElems fmt t.styles (applyStylesElems fmt t.styles es) =
        applyStylesElems fmt t.styles es := by
    intro es hes
    by_cases hdx : fmt = "docx"
    · simp only [applyStylesElems, if_pos hdx, List.map_map]
      apply List.map_congr_left
      intro e he
      exact applyDocxStyle_idem e t.styles (hes e he hdx)
    · by_cases htx : fmt = "tex"
      · simp only [applyStylesElems, if_neg hdx, if_pos htx, List.map_map]
        apply List.map_congr_left
        intro e he
        exact applyTexStyle_idem e t.styles (ht htx)
      · simp [applyStylesElems, hdx, htx]
  have key : applyStyles fmt (applyStyles fmt c t) t =
      { c with elements := some (applyStylesElems fmt t.styles
          (applyStylesElems fmt t.styles (c.elements.getD []))) } := rfl
  have h2 := helems (c.elements.getD []) (fun e he hdx => hd hdx e he)
  rw [key, h2]
  rfl

/-- A mapped content whose single paragraph carries the style `Normal`,
which the template `tN` defines: stable, hence idempotent. -/
def cN : Content :=
  { ctype := some "mapped_content", template_type := some "docx",
    elements := some [{ etype := some "paragraph", text := some "hello",
                        style := some "Normal" }] }

/-- Witness for `applyStyles_idempotent` at a concrete input. -/
theorem applyStyles_idempotent_witness :
    applyStyles "docx" (applyStyles "docx" cN tN) tN = applyStyles "docx" cN tN := by
  apply applyStyles_idempotent
  · intro _ e he
    fin_cases he
    left
    decide
  · intro hcontra
    exact absurd hcontra (by decide)

/-! ## C10: unknown element kinds are dropped silently -/

/-- The element kinds carried by the mapper's `if`/`elif` chains, identical
for the docx and the tex branch. -/
def handledKind (t : String) : Bool :=
  t == "heading" || t == "paragraph" || t == "list" || t == "list_item" ||
  t == "code_block" || t == "block_quote" || t == "table" || t == "image"

/-- Helper: a source element of unhandled kind contributes nothing to the
docx mapping. -/
theorem mapDocxElems_unhandled_skip (hs : List (Nat × String)) (ps : String)
    (e : El) (l : List El) (h : handledKind (e.etype.getD "") = false) :
    mapDocxElems hs ps (e :: l) = mapDocxElems hs ps l := by
  rcases hrec : mapDocxElems hs ps l with ⟨es', iss'⟩
  simp only [handledKind, Bool.or_eq_false_iff, beq_eq_false_iff_ne, ne_eq] at h
  obtain ⟨⟨⟨⟨⟨⟨⟨h1, h2⟩, h3⟩, h4⟩, h5⟩, h6⟩, h7⟩, h8⟩ := h
  simp only [mapDocxElems, hrec]
  rw [if_neg h1, if_neg h2, if_neg (not_or.mpr ⟨h3, h4⟩), if_neg h5, if_neg h6,
    if_neg h7, if_neg h8]

/-- Helper: a source element of unhandled kind contributes nothing to the
tex mapping. -/
theorem mapTexElems_unhandled_skip (styles : String → Option TStyle)
    (e : El) (l : List El) (h : handledKind (e.etype.getD "") = false) :
    mapTexElems styles (e :: l) = mapTexElems styles l := by
  rcases hrec : mapTexElems styles l with ⟨es', iss'⟩
  simp only [handledKind, Bool.or_eq_false_iff, beq_eq_false_iff_ne, ne_eq] at h
  obtain ⟨⟨⟨⟨⟨⟨⟨h1, h2⟩, h3⟩, h4⟩, h5⟩, h6⟩, h7⟩, h8⟩ := h
  simp only [mapTexElems, hrec]
  rw [if_neg h1, if_neg h2, if_neg (not_or.mpr ⟨h3, h4⟩), if_neg h5, if_neg h6,
    if_neg h7, if_neg h8]

/-- Helper: restricting the source to its handled elements does not change
the docx mapping at all. -/
theorem mapDocxElems_filter (hs : List (Nat × String)) (ps : String)
    (es : List El) :
    mapDocxElems hs ps (es.filter (fun e => handledKind (e.etype.getD ""))) =
      mapDocxElems hs ps es := by
  induction es with
  | nil => rfl
  | cons e l ih =>
    by_cases hp : handledKind (e.etype.getD "") = true
    · rw [show List.filter (fun e => handledKind (e.etype.getD "")) (e :: l) =
            e :: List.filter (fun e => handledKind (e.etype.getD "")) l by
          simp [List.filter_cons, hp]]
      simp only [mapDocxElems]
      rw [ih]
    · have hf : handledKind (e.etype.getD "") = false := Bool.eq_false_iff.mpr hp
      rw [show List.filter (fun e => handledKind (e.etype.getD "")) (e :: l) =
            List.filter (fun e => handledKind (e.etype.getD "")) l by
          simp [List.filter_cons, hf],
        mapDocxElems_unhandled_skip hs ps e l hf, ih]

/-- Helper: restricting the source to its handled elements does not change
the tex mapping at all. -/
theorem mapTexElems_filter (styles : String → Option TStyle) (es : List El) :
    mapTexElems styles (es.filter (fun e => handledKind (e.etype.getD ""))) =
      mapTexElems styles es := by
  induction es with
  | nil => rfl
  | cons e l ih =>
    by_cases hp : handledKind (e.etype.getD "") = true
    · rw [show List.filter (fun e => handledKind (e.etype.getD "")) (e :: l) =
            e :: List.filter (fun e => handledKind (e.etype.getD "")) l by
          simp [List.filter_cons, hp]]
      simp only [mapTexElems]
      rw [ih]
    · have hf : handledKind (e.etype.getD "") = false := Bool.eq_false_iff.mpr hp
      rw [show List.filter (fun e => handledKind (e.etype.getD "")) (e :: l) =
            List.filter (fun e => handledKind (e.etype.getD "")) l by
          simp [List.filter_cons, hf],
        mapTexElems_unhandled_skip styles e l hf, ih]

/-- C10 (confirmed): in both supported formats, source elements whose kind
is outside the handled set (heading, paragraph, list, list_item, code_block,
block_quote, table, image) are dropped silently: removing them from the
source changes neither the mapped content nor the recorded issues — they
contribute no mapped element and no issue — and the embedding is total, as
each source loop is a pure `if`/`elif` dispatch on `element.get('type', '')`
with no failing operation. -/
theorem unknown_kinds_dropped (c : Content) (t : Template) :
    mapToDocx { c with elements := some ((c.elements.getD []).filter
        (fun e => handledKind (e.etype.getD ""))) } t = mapToDocx c t ∧
    mapToTex { c with elements := some ((c.elements.getD []).filter
        (fun e => handledKind (e.etype.getD ""))) } t = mapToTex c t := by
  constructor
  · rcases hx : mapDocxElems (extractHeadingStyles t.struct)
        (extractDefaultParagraphStyle t.struct) (c.elements.getD []) with ⟨es1, iss1⟩
    have hf := (mapDocxElems_filter (extractHeadingStyles t.struct)
      (extractDefaultParagraphStyle t.struct) (c.elements.getD [])).trans hx
    simp [mapToDocx, hx, hf]
  · rcases hx : mapTexElems t.styles (c.elements.getD []) with ⟨es1, iss1⟩
    have hf := (mapTexElems_filter t.styles (c.elements.getD [])).trans hx
    simp [mapToTex, hx, hf]

/-! ## C6: remediation locality -/

/-- Index of the first element satisfying a predicate (the `for i, element
in enumerate` search of the remediation loop). -/
def firstIdx (p : El → Bool) : List El → Option Nat
  | [] => none
  | e :: rest => if p e then some 0 else (firstIdx p rest).map (· + 1)

/-- An issue type the remediation loop acts on. -/
def patchableB (iss : Issue) : Bool :=
  iss.itype == "missing_heading_style" || iss.itype == "missing_heading_command"

/-- The patch one issue applies to its matched element: set `style` for a
`missing_heading_style` issue, `command` (from the static level table) for a
`missing_heading_command` issue. -/
def patchElem (e : El) (iss : Issue) : El :=
  if iss.itype = "missing_heading_style" then
    { e with style := some ("Heading " ++ toString iss.level) }
  else { e with command := some (defaultTexHeadingCommand iss.level) }

/-- The unique issue (if any) whose first matching element sits at position
`i` of the element list. -/
def patcherFor (issues : List Issue) (es : List El) (i : Nat) : Option Issue :=
  issues.find? (fun iss => patchableB iss &&
    (firstIdx (fun e => elMatches e iss.level iss.text) es == some i))

/-- Helper: patching the first match preserves the length. -/
theorem patchFirst_length (p : El → Bool) (f : El → El) (es : List El) :
    (patchFirst p f es).length = es.length := by
  induction es with
  | nil => rfl
  | cons e l ih =>
    by_cases hp : p e <;> simp [patchFirst, hp, ih]

/-- Helper: one remediation step preserves the length. -/
theorem applyIssue_length (es : List El) (iss : Issue) :
    (applyIssue es iss).length = es.length := by
  unfold applyIssue
  split
  · exact patchFirst_length _ _ es
  split
  · exact patchFirst_length _ _ es
  rfl

/-- Helper: the whole remediation fold preserves the length. -/
theorem foldl_applyIssue_length (issues : List Issue) :
    ∀ es : List El, (issues.foldl applyIssue es).length = es.length := by
  induction issues with
  | nil => intro es; rfl
  | cons iss rest ih =>
    intro es
    rw [List.foldl_cons, ih (applyIssue es iss), applyIssue_length]

/-- Helper: positionwise description of `patchFirst` — only the first
matching position is replaced. -/
theorem patchFirst_getElem (p : El → Bool) (f : El → El) (es : List El) :
    ∀ i : Nat, (patchFirst p f es)[i]? =
      match firstIdx p es with
      | some j => if j = i then (es[i]?).map f else es[i]?
      | none => es[i]? := by
  induction es with
  | nil => intro i; simp [patchFirst, firstIdx]
  | cons e l ih =>
    intro i
    by_cases hp : p e
    · cases i with
      | zero => simp [patchFirst, firstIdx, hp]
      | succ k => simp [patchFirst, firstIdx, hp, Nat.succ_ne_zero]
    · cases i with
      | zero =>
        simp only [patchFirst, firstIdx, if_neg hp, List.getElem?_cons_zero]
        rcases hfi : firstIdx p l with _ | j <;> simp
      | succ k =>
        simp only [patchFirst, firstIdx, if_neg hp, List.getElem?_cons_succ]
        rw [ih k]
        rcases hfi : firstIdx p l with _ | j
        · simp
        · simp only [Option.map_some]
          by_cases hji : j = k
          · simp [hji]
          · simp [hji, fun h => hji (Nat.succ_injective h)]

/-- Helper: a patch that does not disturb the match predicate does not move
the first match. -/
theorem firstIdx_patchFirst (q p : El → Bool) (f : El → El) (es : List El)
    (hf : ∀ x, q (f x) = q x) :
    firstIdx q (patchFirst p f es) = firstIdx q es := by
  induction es with
  | nil => rfl
  | cons e l ih =>
    by_cases hp : p e
    · simp [patchFirst, firstIdx, hp, hf e]
    · simp [patchFirst, firstIdx, hp, ih]

/-- Helper: a remediation step never changes which element an issue
matches, since it only touches `style` and `command`. -/
theorem firstIdx_applyIssue (es : List El) (iss0 : Issue) (lv : Nat) (tx : String) :
    firstIdx (fun e => elMatches e lv tx) (applyIssue es iss0) =
      firstIdx (fun e => elMatches e lv tx) es := by
  unfold applyIssue
  split
  · exact firstIdx_patchFirst _ _ _ es (fun x => rfl)
  split
  · exact firstIdx_patchFirst _ _ _ es (fun x => rfl)
  rfl

/-- Helper: the assignment of issues to positions is invariant under one
remediation step. -/
theorem patcherFor_applyIssue (issues : List Issue) (es : List El)
    (iss0 : Issue) (i : Nat) :
    patcherFor issues (applyIssue es iss0) i = patcherFor issues es i := by
  unfold patcherFor
  have hfun : (fun iss => patchableB iss &&
      (firstIdx (fun e => elMatches e iss.level iss.text) (applyIssue es iss0) == some i)) =
      (fun iss => patchableB iss &&
      (firstIdx (fun e => elMatches e iss.level iss.text) es == some i)) :=
    funext (fun iss => by rw [firstIdx_applyIssue])
  rw [hfun]

/-- Helper: unpack a successful match test. -/
theorem elMatches_eq (e : El) (lv : Nat) (tx : String)
    (h : elMatches e lv tx = true) :
    e.level = some lv ∧ e.text = some tx := by
  have h' := h
  unfold elMatches at h'
  obtain ⟨h12, h3⟩ := Bool.and_eq_true_iff.mp h'
  obtain ⟨h1, h2⟩ := Bool.and_eq_true_iff.mp h12
  exact ⟨eq_of_beq h2, eq_of_beq h3⟩

/-- Helper: a found first index points at an element satisfying the
predicate. -/
theorem firstIdx_some (p : El → Bool) (es : List El) :
    ∀ i, firstIdx p es = some i → ∃ e, es[i]? = some e ∧ p e = true := by
  induction es with
  | nil => intro i h; simp [firstIdx] at h
  | cons e l ih =>
    intro i h
    by_cases hp : p e
    · simp only [firstIdx, if_pos hp] at h
      injection h with h
      subst h
      exact ⟨e, by simp, hp⟩
    · simp only [firstIdx, if_neg hp] at h
      rcases hfi : firstIdx p l with _ | j
      · rw [hfi] at h
        simp at h
      · rw [hfi] at h
        have h' : j + 1 = i := by simpa using h
        subst h'
        rcases ih j hfi with ⟨x, hx1, hx2⟩
        exact ⟨x, by simpa using hx1, hx2⟩

/-- Helper: the one remediation step at a patchable issue whose first match
is position `i` patches exactly that position. -/
theorem applyIssue_getElem_of_match (es : List El) (iss : Issue) (i : Nat)
    (hpat : patchableB iss = true)
    (hfi : firstIdx (fun e => elMatches e iss.level iss.text) es = some i) :
    (applyIssue es iss)[i]? = (es[i]?).map (fun e => patchElem e iss) := by
  have hpat' : iss.itype = "missing_heading_style" ∨
      iss.itype = "missing_heading_command" := by
    simpa [patchableB] using hpat
  rcases hpat' with hA' | hB'
  · rw [show applyIssue es iss = patchFirst (fun e => elMatches e iss.level iss.text)
        (fun e => { e with style := some ("Heading " ++ toString iss.level) }) es by
      simp [applyIssue, hA']]
    rw [patchFirst_getElem]
    simp only [hfi]
    rcases es[i]? with _ | e <;> simp [patchElem, hA']
  · have hBA : iss.itype ≠ "missing_heading_style" := by rw [hB']; decide
    rw [show applyIssue es iss = patchFirst (fun e => elMatches e iss.level iss.text)
        (fun e => { e with command := some (defaultTexHeadingCommand iss.level) }) es by
      simp [applyIssue, hB', hBA]]
    rw [patchFirst_getElem]
    simp only [hfi]
    rcases es[i]? with _ | e <;> simp [patchElem, hBA]

/-- Helper: a remediation step leaves every position other than its first
match unchanged. -/
theorem applyIssue_getElem_of_no_match (es : List El) (iss : Issue) (i : Nat)
    (h : (patchableB iss && (firstIdx (fun e => elMatches e iss.level iss.text) es ==
      some i)) = false) :
    (applyIssue es iss)[i]? = es[i]? := by
  rcases Bool.and_eq_false_iff.mp h with hnp | hnf
  · have h1 : iss.itype ≠ "missing_heading_style" := by
      intro hc; simp [patchableB, hc] at hnp
    have h2 : iss.itype ≠ "missing_heading_command" := by
      intro hc; simp [patchableB, hc] at hnp
    simp [applyIssue, h1, h2]
  · have hne : firstIdx (fun e => elMatches e iss.level iss.text) es ≠ some i := by
      intro hc; rw [hc] at hnf; simp at hnf
    have hget : ∀ f, (patchFirst (fun e => elMatches e iss.level iss.text) f es)[i]? =
        es[i]? := by
      intro f
      rw [patchFirst_getElem]
      rcases hfi : firstIdx (fun e => elMatches e iss.level iss.text) es with _ | j
      · simp only [hfi]
      · simp only [hfi]
        have hji : ¬ j = i := fun hji => hne (hfi.trans (by rw [hji]))
        rw [if_neg hji]
    unfold applyIssue
    split
    · exact hget _
    split
    · exact hget _
    rfl

/-- Helper: positionwise description of the whole remediation fold under
pairwise-distinct `(level, text)` references. -/
theorem foldl_applyIssue_getElem (issues : List Issue) :
    ∀ es : List El,
      issues.Pairwise (fun a b => (a.level, a.text) ≠ (b.level, b.text)) →
      ∀ i : Nat, (issues.foldl applyIssue es)[i]? =
        (es[i]?).map (fun e =>
          match patcherFor issues es i with
          | some iss => patchElem e iss
          | none => e) := by
  induction issues with
  | nil =>
    intro es _ i
    simp [patcherFor]
  | cons iss rest ih =>
    intro es hp i
    obtain ⟨hphead, hptail⟩ := List.pairwise_cons.mp hp
    rw [List.foldl_cons, ih (applyIssue es iss) hptail i, patcherFor_applyIssue]
    by_cases hb : (patchableB iss &&
        (firstIdx (fun e => elMatches e iss.level iss.text) es == some i)) = true
    · obtain ⟨hpat, hfib⟩ := Bool.and_eq_true_iff.mp hb
      have hfi : firstIdx (fun e => elMatches e iss.level iss.text) es = some i :=
        by simpa using hfib
      have hhead : patcherFor (iss :: rest) es i = some iss := by
        unfold patcherFor
        simp only [List.find?_cons, hb]
      have hrest : patcherFor rest es i = none := by
        unfold patcherFor
        rw [List.find?_eq_none]
        intro iss' hmem hpred
        obtain ⟨hpat', hfib'⟩ := Bool.and_eq_true_iff.mp hpred
        have hfi' : firstIdx (fun e => elMatches e iss'.level iss'.text) es = some i :=
          by simpa using hfib'
        rcases firstIdx_some _ es i hfi with ⟨e0, hget0, hm0⟩
        rcases firstIdx_some _ es i hfi' with ⟨e1, hget1, hm1⟩
        have hee : e0 = e1 := by
          rw [hget0] at hget1; injection hget1
        subst hee
        obtain ⟨hm0b, hm0c⟩ := elMatches_eq _ _ _ hm0
        obtain ⟨hm1b, hm1c⟩ := elMatches_eq _ _ _ hm1
        apply hphead iss' hmem
        have hlv : iss.level = iss'.level := by
          have := hm0b.symm.trans hm1b
          injection this
        have htx : iss.text = iss'.text := by
          have := hm0c.symm.trans hm1c
          injection this
        rw [hlv, htx]
      rw [hrest, hhead, applyIssue_getElem_of_match es iss i hpat hfi]
      rcases es[i]? with _ | e <;> simp
    · have hb' : (patchableB iss &&
          (firstIdx (fun e => elMatches e iss.level iss.text) es == some i)) = false :=
        Bool.eq_false_iff.mpr hb
      have hhead : patcherFor (iss :: rest) es i = patcherFor rest es i := by
        unfold patcherFor
        simp only [List.find?_cons, hb']
      rw [hhead, applyIssue_getElem_of_no_match es iss i hb']

/-- C6 (confirmed): remediation locality.  Under the hypothesis that the
issues reference pairwise-distinct `(level, text)` pairs (the claim's
distinct `(kind, level, text)` triples: every matched element's kind is
`heading`, so distinctness reduces to the pair), the remediated content has
the same number of elements, and position by position it equals the input
content except exactly at the first matching position of each issue, where
the matched element is patched — its `style` set for a
`missing_heading_style` issue, its `command` set for a
`missing_heading_command` issue, all other fields untouched.  Issues with no
matching element (and issue types outside the two handled ones) patch no
position and are silently skipped; the embedding is total, so no input
raises. -/
theorem remediation_locality (c : Content) (issues : List Issue)
    (hdist : issues.Pairwise (fun a b => (a.level, a.text) ≠ (b.level, b.text))) :
    ((simulateAiAdjustment c issues).elements.getD []).length =
      (c.elements.getD []).length ∧
    ∀ i : Nat, ((simulateAiAdjustment c issues).elements.getD [])[i]? =
      ((c.elements.getD [])[i]?).map (fun e =>
        match patcherFor issues (c.elements.getD []) i with
        | some iss => patchElem e iss
        | none => e) := by
  constructor
  · exact foldl_applyIssue_length issues (c.elements.getD [])
  · exact foldl_applyIssue_getElem issues (c.elements.getD []) hdist

/-- Content for the C6 witness: two styled headings around a paragraph. -/
def cR : Content :=
  { ctype := some "mapped_content", template_type := some "docx",
    elements := some [
      { etype := some "heading", level := some 1, text := some "A",
        style := some "Stale" },
      { etype := some "paragraph", text := some "p", style := some "Normal" },
      { etype := some "heading", level := some 2, text := some "B",
        command := some "\\oldcmd" }] }

/-- Issues for the C6 witness: one per heading, distinct pairs. -/
def issR : List Issue :=
  [⟨"missing_heading_style", 1, "A"⟩, ⟨"missing_heading_command", 2, "B"⟩]

/-- Witness for `remediation_locality` at a concrete input: position 0 is
patched to the synthesized style, position 1 is untouched, position 2 gets
the level-2 command. -/
theorem remediation_locality_witness :
    ((simulateAiAdjustment cR issR).elements.getD [])[0]? =
      some { etype := some "heading", level := some 1, text := some "A",
             style := some "Heading 1" } ∧
    ((simulateAiAdjustment cR issR).elements.getD [])[1]? =
      some { etype := some "paragraph", text := some "p",
             style := some "Normal" } ∧
    ((simulateAiAdjustment cR issR).elements.getD [])[2]? =
      some { etype := some "heading", level := some 2, text := some "B",
             command := some "\\subsection" } := by
  have h := (remediation_locality cR issR (by decide)).2
  exact ⟨(h 0).trans (by decide), (h 1).trans (by decide), (h 2).trans (by decide)⟩

/-! ## C9: metadata extraction -/

/-- Helper: a list without newlines is a single line. -/
theorem splitOnNl_no_nl (l : List Char) (h : '\n' ∉ l) : splitOnNl l = [l] := by
  induction l with
  | nil => rfl
  | cons c r ih =>
    have hc : ¬ c = '\n' := fun hc => h (hc ▸ List.mem_cons_self _ _)
    rw [splitOnNl, if_neg hc, ih (fun hm => h (List.mem_cons_of_mem _ hm))]

/-- Helper: the closing fragment never matches at a character other than a
newline. -/
theorem closes_cons_ne (c : Char) (r : List Char) (hc : c ≠ '\n') :
    closes (c :: r) = false := by
  rcases r with _ | ⟨c2, r2⟩
  · rfl
  rcases r2 with _ | ⟨c3, r3⟩
  · rfl
  rcases r3 with _ | ⟨c4, r4⟩
  · rfl
  simp [closes, hc]

/-- Helper: the lazy group is empty as soon as the closing fragment
matches. -/
theorem lazyGroup_of_closes (tl : List Char) (h : closes tl = true) :
    lazyGroup tl = some [] := by
  cases tl with
  | nil => simp [closes] at h
  | cons c r => simp [lazyGroup, h]

/-- Helper: the lazy group before a matching closing fragment is exactly the
newline-free prefix. -/
theorem lazyGroup_append (l tl : List Char) (hl : ∀ c ∈ l, c ≠ '\n')
    (h : closes tl = true) : lazyGroup (l ++ tl) = some l := by
  induction l with
  | nil => simpa using lazyGroup_of_closes tl h
  | cons c l' ih =>
    have hc : c ≠ '\n' := hl c (List.mem_cons_self _ _)
    have hcl : closes (c :: (l' ++ tl)) = false := closes_cons_ne c _ hc
    rw [List.cons_append, lazyGroup, if_neg (by simp [hcl]),
      ih (fun x hx => hl x (List.mem_cons_of_mem _ hx))]
    rfl

/-- Helper: stripping a leading blank is absorbed by a stripped tail. -/
theorem pyStrip_cons_space (l : List Char) (h : pyStrip l = l) :
    pyStrip (' ' :: l) = l := by
  have h1 : (' ' :: l).dropWhile isPySpace = l.dropWhile isPySpace := by
    simp [List.dropWhile_cons, isPySpace]
  unfold pyStrip at h ⊢
  rw [h1]
  exact h

/-- Helper: the candidate list of the closing `\s*\n` after the final
three-hyphen line is non-empty. -/
theorem sepEnds_newline_nonempty (r : List Char) :
    (sepEnds ('\n' :: r)).isEmpty = false := by
  have h : sepEnds ('\n' :: r) = (sepEndsAux r 1).reverse ++ [1] := by
    simp [sepEnds, sepEndsAux, isPySpace]
  rw [h]
  simp

/-- C9 (confirmed): metadata extraction.  First conjunct: every text that
starts with the block `---`, newline, `title: X`, newline, `---`, newline —
for any newline-free, already-stripped `X` and any trailing text — parses to
exactly the mapping `title ↦ X`.  Second conjunct: a text that does not
start with three hyphens has no leading metadata block, and its metadata is
empty.  Third conjunct: inside a block, each line is split at its first
colon with both sides stripped, and duplicate keys resolve last-write-wins
(shown on a concrete block with a duplicate key and an embedded second
colon). -/
theorem extractMetadata_spec :
    (∀ (X rest : String), '\n' ∉ X.data → pyStrip X.data = X.data →
      extractMetadata ("---\ntitle: " ++ X ++ "\n---\n" ++ rest) = [("title", X)]) ∧
    (∀ s : String, (∀ r : String, s ≠ "---" ++ r) → extractMetadata s = []) ∧
    extractMetadata "---\nk: a\ndup: b\ndup: c\n---\nbody" =
      [("k", "a"), ("dup", "c")] := by
  refine ⟨?_, ?_, by decide⟩
  · intro X rest hX hstrip
    have h1 : ("---\ntitle: " : String).data =
        ['-', '-', '-', '\n', 't', 'i', 't', 'l', 'e', ':', ' '] := rfl
    have h2 : ("\n---\n" : String).data = ['\n', '-', '-', '-', '\n'] := rfl
    have hdata : ("---\ntitle: " ++ X ++ "\n---\n" ++ rest).data =
        '-' :: '-' :: '-' :: '\n' ::
          ((['t', 'i', 't', 'l', 'e', ':', ' '] ++ X.data) ++
            ('\n' :: '-' :: '-' :: '-' :: '\n' :: rest.data)) := by
      rw [data_append, data_append, data_append, h1, h2]
      simp
    have hclose : closes ('\n' :: '-' :: '-' :: '-' :: '\n' :: rest.data) = true := by
      simp [closes, sepEnds_newline_nonempty rest.data]
    have hlnonl : ∀ c ∈ ['t', 'i', 't', 'l', 'e', ':', ' '] ++ X.data, c ≠ '\n' := by
      intro c hc
      rcases List.mem_append.mp hc with hc1 | hc2
      · fin_cases hc1 <;> decide
      · exact fun hcn => hX (hcn ▸ hc2)
    have hgroup : matchFront (("---\ntitle: " ++ X ++ "\n---\n" ++ rest).data) =
        some (['t', 'i', 't', 'l', 'e', ':', ' '] ++ X.data) := by
      rw [hdata]
      rw [matchFront, if_pos ⟨rfl, rfl, rfl⟩]
      have hsep : sepEnds ('\n' ::
          ((['t', 'i', 't', 'l', 'e', ':', ' '] ++ X.data) ++
            ('\n' :: '-' :: '-' :: '-' :: '\n' :: rest.data))) = [1] := by
        simp [sepEnds, sepEndsAux, isPySpace]
      rw [hsep, firstGroup]
      rw [show ('\n' ::
          ((['t', 'i', 't', 'l', 'e', ':', ' '] ++ X.data) ++
            ('\n' :: '-' :: '-' :: '-' :: '\n' :: rest.data))).drop 1 =
          (['t', 'i', 't', 'l', 'e', ':', ' '] ++ X.data) ++
            ('\n' :: '-' :: '-' :: '-' :: '\n' :: rest.data) from rfl]
      rw [lazyGroup_append _ _ hlnonl hclose]
    rw [extractMetadata, hgroup]
    have hnl : '\n' ∉ ['t', 'i', 't', 'l', 'e', ':', ' '] ++ X.data :=
      fun hm => (hlnonl '\n' hm) rfl
    show List.foldl parseMetaLine []
      (splitOnNl (['t', 'i', 't', 'l', 'e', ':', ' '] ++ X.data)) = [("title", X)]
    rw [splitOnNl_no_nl _ hnl]
    rw [List.foldl_cons, List.foldl_nil]
    have hcon : (['t', 'i', 't', 'l', 'e', ':', ' '] ++ X.data).contains ':' = true := by
      simp [List.contains]
    rw [parseMetaLine, if_pos hcon]
    have hkey : (['t', 'i', 't', 'l', 'e', ':', ' '] ++ X.data).takeWhile
        (fun c => c ≠ ':') = ['t', 'i', 't', 'l', 'e'] := by
      simp [List.takeWhile]
    have hval : ((['t', 'i', 't', 'l', 'e', ':', ' '] ++ X.data).dropWhile
        (fun c => c ≠ ':')).drop 1 = ' ' :: X.data := by
      simp [List.dropWhile]
    rw [hkey, hval]
    show assocInsert [] (String.mk (pyStrip ['t', 'i', 't', 'l', 'e']))
        (String.mk (pyStrip (' ' :: X.data))) = [("title", X)]
    rw [pyStrip_cons_space X.data hstrip]
    rw [show pyStrip ['t', 'i', 't', 'l', 'e'] = ['t', 'i', 't', 'l', 'e'] from rfl]
    rw [show String.mk X.data = X from rfl]
    rfl
  · intro s h
    rcases s with ⟨sd⟩
    rcases sd with _ | ⟨c1, l1⟩
    · rfl
    rcases l1 with _ | ⟨c2, l2⟩
    · rfl
    rcases l2 with _ | ⟨c3, l3⟩
    · rfl
    by_cases hccc : c1 = '-' ∧ c2 = '-' ∧ c3 = '-'
    · exfalso
      obtain ⟨e1, e2, e3⟩ := hccc
      subst e1; subst e2; subst e3
      exact h (String.mk l3) rfl
    · simp [extractMetadata, matchFront, hccc]

/-- Witness for `extractMetadata_spec` at concrete inputs: a title block
followed by a body, and a text with no leading block. -/
theorem extractMetadata_spec_witness :
    extractMetadata ("---\ntitle: " ++ "Hello" ++ "\n---\n" ++ "body") =
      [("title", "Hello")] ∧
    extractMetadata "plain text" = [] := by
  constructor
  · exact extractMetadata_spec.1 "Hello" "body" (by decide) (by decide)
  · apply extractMetadata_spec.2.1 "plain text"
    intro r hr
    have h3 : ("plain text").data.take 3 = ("---" ++ r).data.take 3 := by rw [hr]
    rw [data_append] at h3
    have h4 : ("---" : String).data = ['-', '-', '-'] := rfl
    have h5 : ("plain text").data = ['p', 'l', 'a', 'i', 'n', ' ', 't', 'e', 'x', 't'] := rfl
    rw [h4, h5] at h3
    simp [List.take] at h3

end AcadWrite
